import Mathlib

/-!
Verification of the endpoint-fetcher-cache plugin (src/index.ts) against its
natural-language specification.

The embedding is shallow: JS `Map` state becomes an association list with
unique keys, instants (`new Date()`) become natural numbers counting
milliseconds, the asynchronous origin operation becomes an explicit
`Except Err Val` outcome passed to each call, and every store mutation is
explicit state passing.  Each call additionally reports how many times it
invoked the origin operation, so "the origin operation is invoked" is a
checkable count.
-/

/-- Payload values produced by the origin operation.  The cache treats them as
opaque, so `Nat` suffices. -/
abbrev Val := Nat

/-- Failure values raised by the origin operation (a rejected promise).  Opaque
to the cache, modelled as `String`. -/
abbrev Err := String

/-- Instants in milliseconds, as read from the clock via `new Date()`. -/
abbrev Time := Nat

/-- `CacheEntry` (src/index.ts lines 117-121): the stored unit. -/
structure CacheEntry where
  data : Val
  cachedAt : Time
  expiresAt : Time
deriving Repr, DecidableEq

/-- `Map.get` on the association-list model of a JS `Map`. -/
def mapGet : List (String × CacheEntry) → String → Option CacheEntry
  | [], _ => none
  | (k', v) :: t, k => if k' = k then some v else mapGet t k

/-- `Map.set`: replace the value in place when the key is present, append a new
pair otherwise (JS `Map` keeps the original insertion position on overwrite). -/
def mapSet : List (String × CacheEntry) → String → CacheEntry → List (String × CacheEntry)
  | [], k, v => [(k, v)]
  | (k', v') :: t, k, v => if k' = k then (k, v) :: t else (k', v') :: mapSet t k v

/-- `Map.delete`: remove the pair stored under the key. -/
def mapDelete (l : List (String × CacheEntry)) (k : String) : List (String × CacheEntry) :=
  l.filter (fun p => p.1 != k)

/-- `Map.has`. -/
def mapHas (l : List (String × CacheEntry)) (k : String) : Bool :=
  (mapGet l k).isSome

/-- `InMemoryCacheStorage` (src/index.ts lines 126-171): the default store.
`maxSize = none` models the JS default `Infinity`. -/
structure InMemoryCacheStorage where
  cache : List (String × CacheEntry)
  accessOrder : List String
  maxSize : Option Nat
deriving Repr, DecidableEq

/-- `new InMemoryCacheStorage(maxSize)`. -/
def InMemoryCacheStorage.emptyStore (maxSize : Option Nat) : InMemoryCacheStorage :=
  ⟨[], [], maxSize⟩

/-- `this.cache.size >= this.maxSize`; a comparison against `Infinity`
(`maxSize = none`) is always false. -/
def InMemoryCacheStorage.atCapacity (s : InMemoryCacheStorage) : Bool :=
  match s.maxSize with
  | none => false
  | some m => decide (s.cache.length ≥ m)

/-- `get` (lines 132-140): a hit moves its key to the most-recently-used end of
`accessOrder`; the (possibly re-ordered) store is returned alongside the entry. -/
def InMemoryCacheStorage.get (s : InMemoryCacheStorage) (key : String) :
    Option CacheEntry × InMemoryCacheStorage :=
  match mapGet s.cache key with
  | some e =>
      (some e, { s with accessOrder := s.accessOrder.filter (fun k => k != key) ++ [key] })
  | none => (none, s)

/-- `set` (lines 142-156).  At capacity with a new key, `accessOrder.shift()`
pops the least-recently-used key; the following `if (oldestKey)` is a JS
truthiness test, so the `cache.delete` is skipped not only when the order list
was empty (`undefined`) but also when the popped key is the empty string. -/
def InMemoryCacheStorage.set (s : InMemoryCacheStorage) (key : String) (v : CacheEntry) :
    InMemoryCacheStorage :=
  let s1 :=
    if s.atCapacity && !(mapHas s.cache key) then
      match s.accessOrder with
      | [] => s
      | oldest :: rest =>
          if oldest = "" then { s with accessOrder := rest }
          else { s with cache := mapDelete s.cache oldest, accessOrder := rest }
    else s
  { s1 with
    cache := mapSet s1.cache key v,
    accessOrder := s1.accessOrder.filter (fun k => k != key) ++ [key] }

/-- `delete` (lines 158-161). -/
def InMemoryCacheStorage.delete (s : InMemoryCacheStorage) (key : String) :
    InMemoryCacheStorage :=
  { s with
    cache := mapDelete s.cache key,
    accessOrder := s.accessOrder.filter (fun k => k != key) }

/-- `clear` (lines 163-166). -/
def InMemoryCacheStorage.clear (s : InMemoryCacheStorage) : InMemoryCacheStorage :=
  { s with cache := [], accessOrder := [] }

/-- `keys` (lines 168-170). -/
def InMemoryCacheStorage.keys (s : InMemoryCacheStorage) : List String :=
  s.cache.map Prod.fst

/-- `defaultKeyGenerator` (lines 176-181).  The input is modelled as
`Option String`: `none` stands for `undefined`/`null` (serialized as the empty
string), `some j` for the `JSON.stringify` image of a present input. -/
def defaultKeyGenerator (method path : String) (input : Option String) : String :=
  let inputStr := match input with | none => "" | some s => s
  method ++ ":" ++ path ++ ":" ++ inputStr

/-- `CachePluginConfig` (lines 65-101) with the defaults destructured at
lines 248-254: `ttl = 300` seconds, `methods = ['GET']`, `maxSize = Infinity`,
`keyGenerator = defaultKeyGenerator`. -/
structure CachePluginConfig where
  ttl : Nat := 300
  methods : List String := ["GET"]
  maxSize : Option Nat := none
  keyGenerator : String → String → Option String → String := defaultKeyGenerator

/-- `CachingWrapper` (lines 30-60): the value snapshot part of the wrapper.
The `refresh`/`invalidate` capabilities are closures over the cache key and the
call parameters; they are modelled as the standalone functions below, taking
their captured environment explicitly. -/
structure CachingWrapper where
  data : Val
  cachedAt : Time
  expiresAt : Time
deriving Repr, DecidableEq

/-- The `isStale` getter (lines 289-291): `new Date() > expiresAt`, recomputed
from the clock on every access, never stored. -/
def CachingWrapper.isStale (w : CachingWrapper) (now : Time) : Bool :=
  decide (now > w.expiresAt)

/-- `createWrapper` (lines 280-312): builds the snapshot part of the wrapper. -/
def createWrapper (data : Val) (cachedAt expiresAt : Time) : CachingWrapper :=
  ⟨data, cachedAt, expiresAt⟩

/-- The `refresh` closure (lines 292-305): delete the entry, invoke the origin
operation (outcome `origin`, counted once), and on success write the
replacement entry with `newCachedAt = now`, `newExpiresAt = now + ttl * 1000`
and return a newly built wrapper.  On failure the rejection propagates with the
entry left deleted. -/
def CachingWrapper.refresh (cfg : CachePluginConfig) (cacheKey : String)
    (origin : Except Err Val) (now : Time) (s : InMemoryCacheStorage) :
    Except Err CachingWrapper × InMemoryCacheStorage × Nat :=
  let s1 := s.delete cacheKey
  match origin with
  | .error e => (.error e, s1, 1)
  | .ok freshData =>
      let newCachedAt := now
      let newExpiresAt := now + cfg.ttl * 1000
      (.ok (createWrapper freshData newCachedAt newExpiresAt),
        s1.set cacheKey ⟨freshData, newCachedAt, newExpiresAt⟩, 1)

/-- The `invalidate` closure (lines 306-308): `storage.delete(cacheKey)`,
returning no value (only the updated store). -/
def CachingWrapper.invalidate (cacheKey : String) (s : InMemoryCacheStorage) :
    InMemoryCacheStorage :=
  s.delete cacheKey

/-- Result of one wrapped call: the raw pass-through shape for ineligible
verbs, or the wrapper shape for eligible ones (the deliberate bifurcation noted
in the spec). -/
inductive CallResult where
  | raw (v : Val)
  | wrapped (w : CachingWrapper)
deriving Repr, DecidableEq

/-- The fetch-fresh tail of the eligible path (lines 322-334): invoke the
origin operation; on failure propagate it with the store untouched, on success
write the new entry and return a fresh wrapper. -/
def fetchFresh (cfg : CachePluginConfig) (cacheKey : String) (origin : Except Err Val)
    (now : Time) (s : InMemoryCacheStorage) :
    Except Err CallResult × InMemoryCacheStorage × Nat :=
  match origin with
  | .error e => (.error e, s, 1)
  | .ok result =>
      let cachedAt := now
      let expiresAt := now + cfg.ttl * 1000
      (.ok (.wrapped (createWrapper result cachedAt expiresAt)),
        s.set cacheKey ⟨result, cachedAt, expiresAt⟩, 1)

/-- The eligible path of the interceptor (lines 274-335): derive nothing more
(the key is passed in), look the key up (which promotes on a hit, expired or
not), serve a live hit without invoking the origin, otherwise fetch fresh. -/
def eligibleCall (cfg : CachePluginConfig) (cacheKey : String) (origin : Except Err Val)
    (now : Time) (s : InMemoryCacheStorage) :
    Except Err CallResult × InMemoryCacheStorage × Nat :=
  match s.get cacheKey with
  | (some cached, s1) =>
      if now < cached.expiresAt then
        (.ok (.wrapped (createWrapper cached.data cached.cachedAt cached.expiresAt)), s1, 0)
      else fetchFresh cfg cacheKey origin now s1
  | (none, s1) => fetchFresh cfg cacheKey origin now s1

/-- `handlerWrapper` (lines 257-336), one call of the wrapped operation: a verb
outside the configured cacheable set passes straight through to the origin
operation and returns its raw outcome unchanged; an eligible verb runs the
cache path on the key derived by the configured key generator.  The third
component counts origin-operation invocations made by this call. -/
def handlerWrapper (cfg : CachePluginConfig) (method path : String) (input : Option String)
    (origin : Except Err Val) (now : Time) (s : InMemoryCacheStorage) :
    Except Err CallResult × InMemoryCacheStorage × Nat :=
  if ¬ (cfg.methods.contains method = true) then
    (origin.map CallResult.raw, s, 1)
  else
    eligibleCall cfg (cfg.keyGenerator method path input) origin now s

/-- `clearCache` (lines 350-354): clears the given storage when one is passed,
does nothing otherwise. -/
def clearCache (storage : Option InMemoryCacheStorage) : Option InMemoryCacheStorage :=
  match storage with
  | some st => some st.clear
  | none => none

/-- Modelled from the spec: the control-surface object
`{clear, invalidate, invalidateKey}` that the plugin exposes to the host is not
present in the source snapshot (only its callers in the test suite and the
type-check script remain); per spec §4.5, `clear()` empties the entire store
owned by the plugin instance. -/
def ControlSurface.clear (s : InMemoryCacheStorage) : InMemoryCacheStorage :=
  InMemoryCacheStorage.clear s

/-- Modelled from the spec: `invalidate(verb, path, input)` derives a key via
the same key generator used by the interceptor (the one in the plugin
configuration) and deletes that entry from the store. -/
def ControlSurface.invalidate (cfg : CachePluginConfig) (method path : String)
    (input : Option String) (s : InMemoryCacheStorage) : InMemoryCacheStorage :=
  s.delete (cfg.keyGenerator method path input)

/-- Modelled from the spec: `invalidateKey(literalKey)` deletes by exact key,
bypassing key generation. -/
def ControlSurface.invalidateKey (literalKey : String) (s : InMemoryCacheStorage) :
    InMemoryCacheStorage :=
  s.delete literalKey

/-- One operation of the store interface, for reasoning about arbitrary
operation sequences on the default store. -/
inductive StoreOp where
  | opGet (k : String)
  | opSet (k : String) (v : CacheEntry)
  | opDelete (k : String)
  | opClear
deriving Repr

/-- Apply one store operation (the returned-entry part of `get` is dropped;
only the state matters here). -/
def applyOp (s : InMemoryCacheStorage) : StoreOp → InMemoryCacheStorage
  | .opGet k => (s.get k).2
  | .opSet k v => s.set k v
  | .opDelete k => s.delete k
  | .opClear => s.clear

/-- Apply a sequence of store operations, first to last. -/
def applyOps (s : InMemoryCacheStorage) (ops : List StoreOp) : InMemoryCacheStorage :=
  ops.foldl applyOp s

/-- The "one entry per key, one LRU position per key" invariant: the access
order sequence holds each key at most once and its keys are exactly the keys of
the entry map. -/
def StoreInv (s : InMemoryCacheStorage) : Prop :=
  s.accessOrder.Nodup ∧
  (∀ k ∈ s.accessOrder, k ∈ s.keys) ∧
  (∀ k ∈ s.keys, k ∈ s.accessOrder)

instance (s : InMemoryCacheStorage) : Decidable (StoreInv s) := by
  unfold StoreInv; infer_instance

/-- No entry is stored under the empty-string key (the key the eviction guard
mistakes for an absent one). -/
def NoEmptyKey (s : InMemoryCacheStorage) : Prop :=
  ∀ k ∈ s.keys, k ≠ ""

instance (s : InMemoryCacheStorage) : Decidable (NoEmptyKey s) := by
  unfold NoEmptyKey; infer_instance

/-- An operation is benign for the invariant when any key it inserts is
nonempty; reads and removals are unrestricted. -/
def opSetKeyNonempty : StoreOp → Prop
  | .opSet k _ => k ≠ ""
  | _ => True

instance (op : StoreOp) : Decidable (opSetKeyNonempty op) := by
  cases op <;> simp [opSetKeyNonempty] <;> infer_instance

/-- Insert a list of keys in order, all with the same entry value. -/
def insertKeys (s : InMemoryCacheStorage) (ks : List String) (v : CacheEntry) :
    InMemoryCacheStorage :=
  ks.foldl (fun st k => st.set k v) s

/-! ### Association-list and filter lemmas -/

theorem mapGet_mapSet_self (l : List (String × CacheEntry)) (k : String) (v : CacheEntry) :
    mapGet (mapSet l k v) k = some v := by
  induction l with
  | nil => simp [mapSet, mapGet]
  | cons p t ih =>
      obtain ⟨k', v'⟩ := p
      by_cases h : k' = k
      · simp [mapSet, mapGet, h]
      · simp [mapSet, mapGet, h, ih]

theorem mapGet_mapSet_ne (l : List (String × CacheEntry)) {k k' : String} (v : CacheEntry)
    (h : k' ≠ k) : mapGet (mapSet l k v) k' = mapGet l k' := by
  induction l with
  | nil =>
      simp only [mapSet, mapGet]
      rw [if_neg (fun hk => h hk.symm)]
  | cons p t ih =>
      obtain ⟨k0, v0⟩ := p
      by_cases h0 : k0 = k
      · subst h0
        simp only [mapSet, if_pos rfl, mapGet]
        rw [if_neg (fun hk => h hk.symm), if_neg (fun hk => h hk.symm)]
      · simp only [mapSet, if_neg h0, mapGet]
        by_cases h1 : k0 = k'
        · rw [if_pos h1, if_pos h1]
        · rw [if_neg h1, if_neg h1]
          exact ih

theorem mapGet_mapDelete_self (l : List (String × CacheEntry)) (k : String) :
    mapGet (mapDelete l k) k = none := by
  induction l with
  | nil => simp [mapDelete, mapGet]
  | cons p t ih =>
      obtain ⟨k0, v0⟩ := p
      by_cases h0 : k0 = k
      · simpa [mapDelete, h0] using ih
      · simpa [mapDelete, mapGet, h0] using ih

theorem mapGet_mapDelete_ne (l : List (String × CacheEntry)) {k k' : String}
    (h : k' ≠ k) : mapGet (mapDelete l k) k' = mapGet l k' := by
  induction l with
  | nil => simp [mapDelete, mapGet]
  | cons p t ih =>
      obtain ⟨k0, v0⟩ := p
      by_cases h0 : k0 = k
      · subst h0
        have hd : mapDelete ((k0, v0) :: t) k0 = mapDelete t k0 := by
          simp [mapDelete]
        rw [hd, ih]
        simp only [mapGet]
        rw [if_neg (fun hk => h hk.symm)]
      · have hd : mapDelete ((k0, v0) :: t) k = (k0, v0) :: mapDelete t k := by
          simp [mapDelete, List.filter_cons, h0]
        rw [hd]
        simp only [mapGet]
        by_cases h1 : k0 = k'
        · rw [if_pos h1, if_pos h1]
        · rw [if_neg h1, if_neg h1]
          exact ih

theorem mapGet_eq_none_iff (l : List (String × CacheEntry)) (k : String) :
    mapGet l k = none ↔ k ∉ l.map Prod.fst := by
  induction l with
  | nil => simp [mapGet]
  | cons p t ih =>
      obtain ⟨k0, v0⟩ := p
      simp only [mapGet, List.map_cons, List.mem_cons]
      by_cases h0 : k0 = k
      · subst h0
        simp
      · rw [if_neg h0, ih]
        constructor
        · intro hn hmem
          rcases hmem with h1 | h1
          · exact h0 h1.symm
          · exact hn h1
        · intro hn h1
          exact hn (Or.inr h1)

theorem mapHas_iff (l : List (String × CacheEntry)) (k : String) :
    mapHas l k = true ↔ k ∈ l.map Prod.fst := by
  rw [mapHas, Option.isSome_iff_ne_none]
  simp [Ne, mapGet_eq_none_iff]

theorem mem_keys_mapSet (l : List (String × CacheEntry)) (k x : String) (v : CacheEntry) :
    x ∈ (mapSet l k v).map Prod.fst ↔ x ∈ l.map Prod.fst ∨ x = k := by
  induction l with
  | nil => simp [mapSet]
  | cons p t ih =>
      obtain ⟨k0, v0⟩ := p
      by_cases h0 : k0 = k
      · subst h0
        simp [mapSet]
        tauto
      · simp [mapSet, h0, ih]
        tauto

theorem keys_mapDelete (l : List (String × CacheEntry)) (k : String) :
    (mapDelete l k).map Prod.fst = (l.map Prod.fst).filter (fun x => x != k) := by
  induction l with
  | nil => simp [mapDelete]
  | cons p t ih =>
      obtain ⟨k0, v0⟩ := p
      by_cases h0 : k0 = k
      · simpa [mapDelete, h0] using ih
      · simpa [mapDelete, h0] using ih

theorem mapSet_of_not_mem (l : List (String × CacheEntry)) {k : String} (v : CacheEntry)
    (h : k ∉ l.map Prod.fst) : mapSet l k v = l ++ [(k, v)] := by
  induction l with
  | nil => simp [mapSet]
  | cons p t ih =>
      obtain ⟨k0, v0⟩ := p
      simp only [List.map_cons, List.mem_cons] at h
      push_neg at h
      simp only [mapSet]
      rw [if_neg (fun hk => h.1 hk.symm), ih h.2]
      simp

theorem length_mapSet_of_has (l : List (String × CacheEntry)) {k : String} (v : CacheEntry)
    (h : mapHas l k = true) : (mapSet l k v).length = l.length := by
  induction l with
  | nil => simp [mapHas, mapGet] at h
  | cons p t ih =>
      obtain ⟨k0, v0⟩ := p
      by_cases h0 : k0 = k
      · simp [mapSet, h0]
      · simp only [mapHas, mapGet, h0, if_false] at h
        simp [mapSet, h0, ih h]

theorem filter_ne_of_not_mem {L : List String} {k : String} (h : k ∉ L) :
    L.filter (fun x => x != k) = L := by
  apply List.filter_eq_self.mpr
  intro a ha
  simp only [bne_iff_ne, ne_eq, decide_eq_true_eq]
  exact fun hak => h (hak ▸ ha)

theorem mem_filter_ne {L : List String} {x k : String} :
    x ∈ L.filter (fun y => y != k) ↔ x ∈ L ∧ x ≠ k := by
  simp [List.mem_filter]

theorem nodup_filter_append {L : List String} (k : String) (h : L.Nodup) :
    (L.filter (fun x => x != k) ++ [k]).Nodup := by
  rw [List.nodup_append]
  refine ⟨h.filter _, List.nodup_singleton k, ?_⟩
  intro x hx hk
  rw [List.mem_singleton] at hk
  subst hk
  exact (mem_filter_ne.mp hx).2 rfl

/-! ### Store-level lemmas -/

theorem get_fst (s : InMemoryCacheStorage) (k : String) :
    (s.get k).1 = mapGet s.cache k := by
  unfold InMemoryCacheStorage.get
  cases mapGet s.cache k <;> rfl

theorem get_hit (s : InMemoryCacheStorage) {k : String} {e : CacheEntry}
    (h : mapGet s.cache k = some e) :
    s.get k = (some e,
      { s with accessOrder := s.accessOrder.filter (fun x => x != k) ++ [k] }) := by
  unfold InMemoryCacheStorage.get
  rw [h]

theorem get_miss (s : InMemoryCacheStorage) {k : String}
    (h : mapGet s.cache k = none) : s.get k = (none, s) := by
  unfold InMemoryCacheStorage.get
  rw [h]

theorem get_snd_cache (s : InMemoryCacheStorage) (k : String) :
    (s.get k).2.cache = s.cache := by
  unfold InMemoryCacheStorage.get
  cases mapGet s.cache k <;> rfl

theorem get_snd_maxSize (s : InMemoryCacheStorage) (k : String) :
    (s.get k).2.maxSize = s.maxSize := by
  unfold InMemoryCacheStorage.get
  cases mapGet s.cache k <;> rfl

theorem delete_mapGet_self (s : InMemoryCacheStorage) (k : String) :
    mapGet (s.delete k).cache k = none :=
  mapGet_mapDelete_self s.cache k

/-- The insert-and-promote tail of `set` (the code after the eviction guard),
as a proof-side abbreviation. -/
def setStage (s1 : InMemoryCacheStorage) (k : String) (v : CacheEntry) :
    InMemoryCacheStorage :=
  { s1 with cache := mapSet s1.cache k v,
            accessOrder := s1.accessOrder.filter (fun x => x != k) ++ [k] }

theorem set_eq_of_cond_false (s : InMemoryCacheStorage) (k : String) (v : CacheEntry)
    (h : (s.atCapacity && !(mapHas s.cache k)) = false) :
    s.set k v = setStage s k v := by
  simp only [InMemoryCacheStorage.set, setStage, h]
  simp

theorem set_eq_evict_nil (s : InMemoryCacheStorage) (k : String) (v : CacheEntry)
    (hc : (s.atCapacity && !(mapHas s.cache k)) = true)
    (horder : s.accessOrder = []) :
    s.set k v = setStage s k v := by
  simp only [InMemoryCacheStorage.set, setStage, hc, horder]
  simp [horder]

theorem set_eq_evict_cons (s : InMemoryCacheStorage) (k : String) (v : CacheEntry)
    {k0 : String} {rest : List String}
    (hc : (s.atCapacity && !(mapHas s.cache k)) = true)
    (horder : s.accessOrder = k0 :: rest) (h0 : k0 ≠ "") :
    s.set k v =
      setStage { s with cache := mapDelete s.cache k0, accessOrder := rest } k v := by
  simp only [InMemoryCacheStorage.set, setStage, hc, horder]
  simp [h0]

theorem set_eq_evict_cons_empty (s : InMemoryCacheStorage) (k : String) (v : CacheEntry)
    {rest : List String}
    (hc : (s.atCapacity && !(mapHas s.cache k)) = true)
    (horder : s.accessOrder = "" :: rest) :
    s.set k v = setStage { s with accessOrder := rest } k v := by
  simp only [InMemoryCacheStorage.set, setStage, hc, horder]
  simp

/-! ### Invariant preservation for the default store -/

/-- Invariant plus the side condition that makes the eviction guard honest. -/
def StoreGood (s : InMemoryCacheStorage) : Prop :=
  StoreInv s ∧ NoEmptyKey s

instance (s : InMemoryCacheStorage) : Decidable (StoreGood s) := by
  unfold StoreGood; infer_instance

theorem storeGood_setStage (s : InMemoryCacheStorage) (k : String) (v : CacheEntry)
    (h : StoreGood s) (hk : k ≠ "") : StoreGood (setStage s k v) := by
  obtain ⟨⟨hnd, hfwd, hbwd⟩, hne⟩ := h
  refine ⟨⟨nodup_filter_append k hnd, ?_, ?_⟩, ?_⟩
  · intro x hx
    simp only [setStage, InMemoryCacheStorage.keys] at hx ⊢
    rw [List.mem_append] at hx
    rcases hx with hx | hx
    · obtain ⟨hx1, _⟩ := mem_filter_ne.mp hx
      exact (mem_keys_mapSet s.cache k x v).mpr (Or.inl (hfwd x hx1))
    · rw [List.mem_singleton] at hx
      subst hx
      exact (mem_keys_mapSet s.cache x x v).mpr (Or.inr rfl)
  · intro x hx
    simp only [setStage, InMemoryCacheStorage.keys] at hx ⊢
    rw [List.mem_append]
    rcases (mem_keys_mapSet s.cache k x v).mp hx with hx | hx
    · by_cases hxk : x = k
      · right; rw [List.mem_singleton]; exact hxk
      · left; exact mem_filter_ne.mpr ⟨hbwd x hx, hxk⟩
    · right; rw [List.mem_singleton]; exact hx
  · intro x hx
    simp only [setStage, InMemoryCacheStorage.keys] at hx
    rcases (mem_keys_mapSet s.cache k x v).mp hx with hx | hx
    · exact hne x hx
    · subst hx; exact hk

theorem storeGood_get (s : InMemoryCacheStorage) (k : String)
    (h : StoreGood s) : StoreGood (s.get k).2 := by
  obtain ⟨⟨hnd, hfwd, hbwd⟩, hne⟩ := h
  cases hm : mapGet s.cache k with
  | none => rw [get_miss s hm]; exact ⟨⟨hnd, hfwd, hbwd⟩, hne⟩
  | some e =>
      rw [get_hit s hm]
      have hkmem : k ∈ s.keys := by
        simp only [InMemoryCacheStorage.keys]
        by_contra hcon
        have hnone := (mapGet_eq_none_iff s.cache k).mpr hcon
        rw [hm] at hnone
        exact Option.noConfusion hnone
      refine ⟨⟨nodup_filter_append k hnd, ?_, ?_⟩, hne⟩
      · intro x hx
        rw [List.mem_append] at hx
        rcases hx with hx | hx
        · exact hfwd x (mem_filter_ne.mp hx).1
        · rw [List.mem_singleton] at hx; subst hx; exact hkmem
      · intro x hx
        rw [List.mem_append]
        by_cases hxk : x = k
        · right; rw [List.mem_singleton]; exact hxk
        · left; exact mem_filter_ne.mpr ⟨hbwd x hx, hxk⟩

theorem storeGood_set (s : InMemoryCacheStorage) (k : String) (v : CacheEntry)
    (h : StoreGood s) (hk : k ≠ "") : StoreGood (s.set k v) := by
  by_cases hc : (s.atCapacity && !(mapHas s.cache k)) = true
  · cases horder : s.accessOrder with
    | nil =>
        rw [set_eq_evict_nil s k v hc horder]
        exact storeGood_setStage s k v h hk
    | cons k0 rest =>
        have hk0mem : k0 ∈ s.keys :=
          h.1.2.1 k0 (by rw [horder]; exact List.mem_cons_self k0 rest)
        have hk0 : k0 ≠ "" := h.2 k0 hk0mem
        rw [set_eq_evict_cons s k v hc horder hk0]
        apply storeGood_setStage _ k v _ hk
        obtain ⟨⟨hnd, hfwd, hbwd⟩, hne⟩ := h
        rw [horder] at hnd
        have hk0rest : k0 ∉ rest := (List.nodup_cons.mp hnd).1
        refine ⟨⟨(List.nodup_cons.mp hnd).2, ?_, ?_⟩, ?_⟩
        · intro x hx
          simp only [InMemoryCacheStorage.keys, keys_mapDelete]
          have hxmem : x ∈ s.keys := hfwd x (by rw [horder]; exact List.mem_cons_of_mem k0 hx)
          have hxk0 : x ≠ k0 := fun hcon => hk0rest (hcon ▸ hx)
          exact mem_filter_ne.mpr ⟨hxmem, hxk0⟩
        · intro x hx
          simp only [InMemoryCacheStorage.keys, keys_mapDelete] at hx
          obtain ⟨hx1, hx2⟩ := mem_filter_ne.mp hx
          have := hbwd x hx1
          rw [horder] at this
          rcases List.mem_cons.mp this with hcon | hmem
          · exact absurd hcon hx2
          · exact hmem
        · intro x hx
          simp only [InMemoryCacheStorage.keys, keys_mapDelete] at hx
          exact hne x (mem_filter_ne.mp hx).1
  · rw [set_eq_of_cond_false s k v (by simpa using hc)]
    exact storeGood_setStage s k v h hk

theorem storeGood_delete (s : InMemoryCacheStorage) (k : String)
    (h : StoreGood s) : StoreGood (s.delete k) := by
  obtain ⟨⟨hnd, hfwd, hbwd⟩, hne⟩ := h
  refine ⟨⟨hnd.filter _, ?_, ?_⟩, ?_⟩
  · intro x hx
    simp only [InMemoryCacheStorage.delete, InMemoryCacheStorage.keys, keys_mapDelete]
    obtain ⟨hx1, hx2⟩ := mem_filter_ne.mp hx
    exact mem_filter_ne.mpr ⟨hfwd x hx1, hx2⟩
  · intro x hx
    simp only [InMemoryCacheStorage.delete, InMemoryCacheStorage.keys, keys_mapDelete] at hx
    obtain ⟨hx1, hx2⟩ := mem_filter_ne.mp hx
    exact mem_filter_ne.mpr ⟨hbwd x hx1, hx2⟩
  · intro x hx
    simp only [InMemoryCacheStorage.delete, InMemoryCacheStorage.keys, keys_mapDelete] at hx
    exact hne x (mem_filter_ne.mp hx).1

theorem storeGood_clear (s : InMemoryCacheStorage) : StoreGood s.clear := by
  refine ⟨⟨List.nodup_nil, ?_, ?_⟩, ?_⟩ <;>
    simp [NoEmptyKey, InMemoryCacheStorage.clear, InMemoryCacheStorage.keys]

theorem storeGood_applyOp (s : InMemoryCacheStorage) (op : StoreOp)
    (h : StoreGood s) (hop : opSetKeyNonempty op) : StoreGood (applyOp s op) := by
  cases op with
  | opGet k => exact storeGood_get s k h
  | opSet k v => exact storeGood_set s k v h hop
  | opDelete k => exact storeGood_delete s k h
  | opClear => exact storeGood_clear s

theorem storeGood_applyOps (s : InMemoryCacheStorage) (ops : List StoreOp)
    (h : StoreGood s) (hops : ∀ op ∈ ops, opSetKeyNonempty op) :
    StoreGood (applyOps s ops) := by
  induction ops generalizing s with
  | nil => exact h
  | cons op t ih =>
      have h1 : StoreGood (applyOp s op) :=
        storeGood_applyOp s op h (hops op (List.mem_cons_self op t))
      exact ih (applyOp s op) h1 (fun o ho => hops o (List.mem_cons_of_mem op ho))

/-! ### Filling an empty store with fresh keys -/

theorem keys_map_pair (l : List String) (v : CacheEntry) :
    (l.map (fun k => (k, v))).map Prod.fst = l := by
  induction l with
  | nil => rfl
  | cons a t ih => simp only [List.map_cons, ih]

theorem insertKeys_append (s : InMemoryCacheStorage) (ks1 ks2 : List String) (v : CacheEntry) :
    insertKeys s (ks1 ++ ks2) v = insertKeys (insertKeys s ks1 v) ks2 v := by
  simp [insertKeys, List.foldl_append]

theorem insertKeys_fresh (N : Nat) (v : CacheEntry) (ks : List String)
    (hnd : ks.Nodup) (hlen : ks.length ≤ N) :
    insertKeys (InMemoryCacheStorage.emptyStore (some N)) ks v =
      ⟨ks.map (fun k => (k, v)), ks, some N⟩ := by
  induction ks using List.reverseRecOn with
  | nil => rfl
  | append_singleton l k ih =>
      rw [List.nodup_append] at hnd
      obtain ⟨hndl, -, hdisj⟩ := hnd
      have hkl : k ∉ l := fun hmem => hdisj hmem (List.mem_singleton_self k)
      have hlenl : l.length ≤ N := by
        rw [List.length_append] at hlen
        omega
      rw [insertKeys_append, ih hndl hlenl]
      have hlt : l.length < N := by
        rw [List.length_append, List.length_singleton] at hlen
        omega
      have hcond :
          ((⟨l.map (fun x => (x, v)), l, some N⟩ : InMemoryCacheStorage).atCapacity &&
            !(mapHas (⟨l.map (fun x => (x, v)), l, some N⟩ :
                InMemoryCacheStorage).cache k)) = false := by
        have hcap : (⟨l.map (fun x => (x, v)), l, some N⟩ :
            InMemoryCacheStorage).atCapacity = false := by
          simp only [InMemoryCacheStorage.atCapacity, List.length_map,
            decide_eq_false_iff_not]
          omega
        rw [hcap, Bool.false_and]
      show (⟨l.map (fun x => (x, v)), l, some N⟩ : InMemoryCacheStorage).set k v = _
      rw [set_eq_of_cond_false _ k v hcond]
      simp only [setStage]
      have hknotkeys : k ∉ (l.map (fun x => (x, v))).map Prod.fst := by
        rw [keys_map_pair]
        exact hkl
      rw [mapSet_of_not_mem _ v hknotkeys]
      have hfilt : l.filter (fun x => x != k) = l := filter_ne_of_not_mem hkl
      simp [hfilt]

/-! ### Interceptor-level lemmas -/

theorem handlerWrapper_eligible (cfg : CachePluginConfig) (method path : String)
    (input : Option String) (origin : Except Err Val) (now : Time)
    (s : InMemoryCacheStorage) (hc : cfg.methods.contains method = true) :
    handlerWrapper cfg method path input origin now s =
      eligibleCall cfg (cfg.keyGenerator method path input) origin now s := by
  unfold handlerWrapper
  rw [hc]
  simp

theorem handlerWrapper_ineligible (cfg : CachePluginConfig) (method path : String)
    (input : Option String) (origin : Except Err Val) (now : Time)
    (s : InMemoryCacheStorage) (hc : cfg.methods.contains method = false) :
    handlerWrapper cfg method path input origin now s =
      (origin.map CallResult.raw, s, 1) := by
  unfold handlerWrapper
  rw [hc]
  simp

theorem eligibleCall_hit (cfg : CachePluginConfig) (key : String) (origin : Except Err Val)
    (now : Time) (s : InMemoryCacheStorage) {e : CacheEntry}
    (hm : mapGet s.cache key = some e) (ht : now < e.expiresAt) :
    eligibleCall cfg key origin now s =
      (.ok (.wrapped (createWrapper e.data e.cachedAt e.expiresAt)),
        { s with accessOrder := s.accessOrder.filter (fun x => x != key) ++ [key] }, 0) := by
  unfold eligibleCall
  rw [get_hit s hm]
  simp [ht]

theorem eligibleCall_expired (cfg : CachePluginConfig) (key : String)
    (origin : Except Err Val) (now : Time) (s : InMemoryCacheStorage) {e : CacheEntry}
    (hm : mapGet s.cache key = some e) (ht : ¬ now < e.expiresAt) :
    eligibleCall cfg key origin now s =
      fetchFresh cfg key origin now
        { s with accessOrder := s.accessOrder.filter (fun x => x != key) ++ [key] } := by
  unfold eligibleCall
  rw [get_hit s hm]
  simp [ht]

theorem eligibleCall_miss (cfg : CachePluginConfig) (key : String)
    (origin : Except Err Val) (now : Time) (s : InMemoryCacheStorage)
    (hm : mapGet s.cache key = none) :
    eligibleCall cfg key origin now s = fetchFresh cfg key origin now s := by
  unfold eligibleCall
  rw [get_miss s hm]

theorem fetchFresh_error (cfg : CachePluginConfig) (key : String) (e : Err) (now : Time)
    (s : InMemoryCacheStorage) :
    fetchFresh cfg key (.error e) now s = (.error e, s, 1) := rfl

theorem fetchFresh_ok (cfg : CachePluginConfig) (key : String) (v : Val) (now : Time)
    (s : InMemoryCacheStorage) :
    fetchFresh cfg key (.ok v) now s =
      (.ok (.wrapped (createWrapper v now (now + cfg.ttl * 1000))),
        s.set key ⟨v, now, now + cfg.ttl * 1000⟩, 1) := rfl

theorem set_mapGet_self (s : InMemoryCacheStorage) (k : String) (v : CacheEntry) :
    mapGet (s.set k v).cache k = some v := by
  unfold InMemoryCacheStorage.set
  exact mapGet_mapSet_self _ k v

/-- Any eligible call that returns a wrapper leaves the store carrying an entry
whose fields are exactly the wrapper's fields, under the derived key. -/
theorem eligible_wrapped_entry (cfg : CachePluginConfig) (method path : String)
    (input : Option String) (origin : Except Err Val) (now : Time)
    (s s1 : InMemoryCacheStorage) (w : CachingWrapper) (n : Nat)
    (hc : cfg.methods.contains method = true)
    (h : handlerWrapper cfg method path input origin now s = (.ok (.wrapped w), s1, n)) :
    mapGet s1.cache (cfg.keyGenerator method path input) =
      some ⟨w.data, w.cachedAt, w.expiresAt⟩ := by
  rw [handlerWrapper_eligible cfg method path input origin now s hc] at h
  cases hm : mapGet s.cache (cfg.keyGenerator method path input) with
  | some e =>
      by_cases ht : now < e.expiresAt
      · rw [eligibleCall_hit cfg _ origin now s hm ht] at h
        simp only [Prod.mk.injEq, Except.ok.injEq, CallResult.wrapped.injEq] at h
        obtain ⟨hw, hs1, -⟩ := h
        subst hw
        subst hs1
        simpa [createWrapper] using hm
      · rw [eligibleCall_expired cfg _ origin now s hm ht] at h
        cases origin with
        | error e2 =>
            rw [fetchFresh_error] at h
            simp at h
        | ok v =>
            rw [fetchFresh_ok] at h
            simp only [Prod.mk.injEq, Except.ok.injEq, CallResult.wrapped.injEq] at h
            obtain ⟨hw, hs1, -⟩ := h
            subst hw
            subst hs1
            simpa [createWrapper] using set_mapGet_self _ _ _
  | none =>
      rw [eligibleCall_miss cfg _ origin now s hm] at h
      cases origin with
      | error e2 =>
          rw [fetchFresh_error] at h
          simp at h
      | ok v =>
          rw [fetchFresh_ok] at h
          simp only [Prod.mk.injEq, Except.ok.injEq, CallResult.wrapped.injEq] at h
          obtain ⟨hw, hs1, -⟩ := h
          subst hw
          subst hs1
          simpa [createWrapper] using set_mapGet_self _ _ _

theorem isStale_eq_true_iff (w : CachingWrapper) (now : Time) :
    w.isStale now = true ↔ w.expiresAt < now := by
  simp [CachingWrapper.isStale]

theorem isStale_eq_false_iff (w : CachingWrapper) (now : Time) :
    w.isStale now = false ↔ now ≤ w.expiresAt := by
  simp [CachingWrapper.isStale]

/-! ### Claim theorems -/

/-- C6: for every call whose verb is not in the configured cacheable set, the
wrapped operation invokes the origin operation (invocation count 1), returns
its raw non-wrapped outcome unchanged, and leaves the store exactly as it was,
so no entry is ever created for the call. -/
theorem ineligible_verbs_bypass_cache (cfg : CachePluginConfig) (method path : String)
    (input : Option String) (origin : Except Err Val) (now : Time)
    (s : InMemoryCacheStorage) (hc : cfg.methods.contains method = false) :
    handlerWrapper cfg method path input origin now s =
      (origin.map CallResult.raw, s, 1) :=
  handlerWrapper_ineligible cfg method path input origin now s hc

theorem ineligible_verbs_bypass_cache_witness :
    handlerWrapper {} "POST" "/users" none (Except.ok 3) 0
        (InMemoryCacheStorage.emptyStore none) =
      (Except.ok (CallResult.raw 3), InMemoryCacheStorage.emptyStore none, 1) :=
  ineligible_verbs_bypass_cache {} "POST" "/users" none (Except.ok 3) 0
    (InMemoryCacheStorage.emptyStore none) (by decide)

/-- C9: `isStale` is recomputed from the clock on each access (it is a function
of the current time and `expiresAt` only, modelled as such), is false at every
instant up to and including `expiresAt`, true strictly after it, and therefore
flips from false to true across the expiry instant on the same unchanged
wrapper with no cache interaction. -/
theorem isStale_pure_of_time_and_expiry :
    (∀ (w : CachingWrapper) (now : Time), now ≤ w.expiresAt → w.isStale now = false) ∧
    (∀ (w : CachingWrapper) (now : Time), w.expiresAt < now → w.isStale now = true) ∧
    (∀ (w1 w2 : CachingWrapper) (now : Time), w1.expiresAt = w2.expiresAt →
      w1.isStale now = w2.isStale now) ∧
    (∀ (w : CachingWrapper) (t1 t2 : Time), t1 ≤ w.expiresAt → w.expiresAt < t2 →
      w.isStale t1 = false ∧ w.isStale t2 = true) := by
  refine ⟨?_, ?_, ?_, ?_⟩
  · intro w now h
    rw [isStale_eq_false_iff]
    exact h
  · intro w now h
    rw [isStale_eq_true_iff]
    exact h
  · intro w1 w2 now h
    simp [CachingWrapper.isStale, h]
  · intro w t1 t2 h1 h2
    constructor
    · rw [isStale_eq_false_iff]
      exact h1
    · rw [isStale_eq_true_iff]
      exact h2

theorem isStale_pure_of_time_and_expiry_witness :
    (⟨1, 0, 5⟩ : CachingWrapper).isStale 5 = false ∧
    (⟨1, 0, 5⟩ : CachingWrapper).isStale 6 = true :=
  ⟨isStale_pure_of_time_and_expiry.1 ⟨1, 0, 5⟩ 5 (by decide),
   isStale_pure_of_time_and_expiry.2.1 ⟨1, 0, 5⟩ 6 (by decide)⟩

/-- C3: on an eligible call whose lookup is a miss or an expired hit, an origin
failure propagates to the caller unchanged and no entry is written: the store
ends exactly as it was after the lookup (the lookup itself may only have
promoted the key in the access order), and the origin was invoked once. -/
theorem origin_failure_never_cached (cfg : CachePluginConfig) (method path : String)
    (input : Option String) (err : Err) (now : Time) (s : InMemoryCacheStorage)
    (hc : cfg.methods.contains method = true)
    (hmiss : (s.get (cfg.keyGenerator method path input)).1 = none ∨
      ∃ e, (s.get (cfg.keyGenerator method path input)).1 = some e ∧ ¬ now < e.expiresAt) :
    handlerWrapper cfg method path input (.error err) now s =
      (.error err, (s.get (cfg.keyGenerator method path input)).2, 1) := by
  rw [handlerWrapper_eligible cfg method path input _ now s hc]
  rcases hmiss with hm | ⟨e, hm, ht⟩
  · rw [get_fst] at hm
    rw [eligibleCall_miss cfg _ _ now s hm, fetchFresh_error, get_miss s hm]
  · rw [get_fst] at hm
    rw [eligibleCall_expired cfg _ _ now s hm ht, fetchFresh_error, get_hit s hm]

theorem origin_failure_never_cached_witness :
    handlerWrapper {} "GET" "/p" none (Except.error "boom") 10
        ⟨[("GET:/p:", ⟨7, 0, 5⟩)], ["GET:/p:"], none⟩ =
      (Except.error "boom",
        ((⟨[("GET:/p:", ⟨7, 0, 5⟩)], ["GET:/p:"], none⟩ : InMemoryCacheStorage).get
          (({} : CachePluginConfig).keyGenerator "GET" "/p" none)).2, 1) :=
  origin_failure_never_cached {} "GET" "/p" none "boom" 10
    ⟨[("GET:/p:", ⟨7, 0, 5⟩)], ["GET:/p:"], none⟩ (by decide)
    (Or.inr ⟨⟨7, 0, 5⟩, by decide, by decide⟩)

/-- C4: `refresh()` deletes the entry for its key and only then consults the
origin operation; when the origin fails, the failure propagates with the store
left in the deleted state (the entry is not restored), so any later eligible
call on the same key finds no entry and is forced to invoke the origin. -/
theorem refresh_failure_leaves_entry_deleted (cfg : CachePluginConfig)
    (method path : String) (input : Option String) (err : Err) (now : Time)
    (s : InMemoryCacheStorage) (hc : cfg.methods.contains method = true) :
    CachingWrapper.refresh cfg (cfg.keyGenerator method path input)
        (.error err) now s =
      (.error err, s.delete (cfg.keyGenerator method path input), 1) ∧
    mapGet (s.delete (cfg.keyGenerator method path input)).cache
      (cfg.keyGenerator method path input) = none ∧
    (∀ (origin2 : Except Err Val) (t2 : Time),
      (handlerWrapper cfg method path input origin2 t2
        (s.delete (cfg.keyGenerator method path input))).2.2 = 1) := by
  refine ⟨rfl, delete_mapGet_self s _, ?_⟩
  intro origin2 t2
  rw [handlerWrapper_eligible cfg method path input origin2 t2 _ hc,
    eligibleCall_miss cfg _ origin2 t2 _ (delete_mapGet_self s _)]
  cases origin2 <;> rfl

theorem refresh_failure_leaves_entry_deleted_witness :
    CachingWrapper.refresh {} (({} : CachePluginConfig).keyGenerator "GET" "/p" none)
        (Except.error "down") 3 ⟨[("GET:/p:", ⟨7, 0, 99⟩)], ["GET:/p:"], none⟩ =
      (Except.error "down",
        (⟨[("GET:/p:", ⟨7, 0, 99⟩)], ["GET:/p:"], none⟩ : InMemoryCacheStorage).delete
          (({} : CachePluginConfig).keyGenerator "GET" "/p" none), 1) ∧
    mapGet ((⟨[("GET:/p:", ⟨7, 0, 99⟩)], ["GET:/p:"], none⟩ :
        InMemoryCacheStorage).delete
        (({} : CachePluginConfig).keyGenerator "GET" "/p" none)).cache
      (({} : CachePluginConfig).keyGenerator "GET" "/p" none) = none ∧
    (handlerWrapper {} "GET" "/p" none (Except.ok 5) 9
      ((⟨[("GET:/p:", ⟨7, 0, 99⟩)], ["GET:/p:"], none⟩ :
        InMemoryCacheStorage).delete
        (({} : CachePluginConfig).keyGenerator "GET" "/p" none))).2.2 = 1 := by
  have h := refresh_failure_leaves_entry_deleted {} "GET" "/p" none "down" 3
    ⟨[("GET:/p:", ⟨7, 0, 99⟩)], ["GET:/p:"], none⟩ (by decide)
  exact ⟨h.1, h.2.1, h.2.2 (Except.ok 5) 9⟩

/-- C8: the wrapper's `invalidate()` is exactly a store delete of its key and
yields no other value, so the entry is gone and the next eligible call for the
key is a miss that invokes the origin operation.  Wrappers already returned are
immutable snapshot values in this embedding, so their `data`, `cachedAt` and
`expiresAt` fields are untouched by construction. -/
theorem wrapper_invalidate_forces_miss (cfg : CachePluginConfig) (method path : String)
    (input : Option String) (origin2 : Except Err Val) (t2 : Time)
    (s : InMemoryCacheStorage) (hc : cfg.methods.contains method = true) :
    CachingWrapper.invalidate (cfg.keyGenerator method path input) s =
      s.delete (cfg.keyGenerator method path input) ∧
    mapGet (CachingWrapper.invalidate (cfg.keyGenerator method path input) s).cache
      (cfg.keyGenerator method path input) = none ∧
    ((CachingWrapper.invalidate (cfg.keyGenerator method path input) s).get
      (cfg.keyGenerator method path input)).1 = none ∧
    (handlerWrapper cfg method path input origin2 t2
      (CachingWrapper.invalidate (cfg.keyGenerator method path input) s)).2.2 = 1 := by
  refine ⟨rfl, delete_mapGet_self s _, ?_, ?_⟩
  · rw [get_fst]
    exact delete_mapGet_self s _
  · rw [handlerWrapper_eligible cfg method path input origin2 t2 _ hc,
      eligibleCall_miss cfg (cfg.keyGenerator method path input) origin2 t2
        (CachingWrapper.invalidate (cfg.keyGenerator method path input) s)
        (delete_mapGet_self s _)]
    cases origin2 <;> rfl

theorem wrapper_invalidate_forces_miss_witness :
    CachingWrapper.invalidate (({} : CachePluginConfig).keyGenerator "GET" "/p" none)
        ⟨[("GET:/p:", ⟨7, 0, 99⟩)], ["GET:/p:"], none⟩ =
      (⟨[("GET:/p:", ⟨7, 0, 99⟩)], ["GET:/p:"], none⟩ : InMemoryCacheStorage).delete
        (({} : CachePluginConfig).keyGenerator "GET" "/p" none) ∧
    mapGet (CachingWrapper.invalidate
        (({} : CachePluginConfig).keyGenerator "GET" "/p" none)
        ⟨[("GET:/p:", ⟨7, 0, 99⟩)], ["GET:/p:"], none⟩).cache
      (({} : CachePluginConfig).keyGenerator "GET" "/p" none) = none ∧
    ((CachingWrapper.invalidate (({} : CachePluginConfig).keyGenerator "GET" "/p" none)
        ⟨[("GET:/p:", ⟨7, 0, 99⟩)], ["GET:/p:"], none⟩).get
      (({} : CachePluginConfig).keyGenerator "GET" "/p" none)).1 = none ∧
    (handlerWrapper {} "GET" "/p" none (Except.ok 8) 50
      (CachingWrapper.invalidate (({} : CachePluginConfig).keyGenerator "GET" "/p" none)
        ⟨[("GET:/p:", ⟨7, 0, 99⟩)], ["GET:/p:"], none⟩)).2.2 = 1 :=
  wrapper_invalidate_forces_miss {} "GET" "/p" none (Except.ok 8) 50
    ⟨[("GET:/p:", ⟨7, 0, 99⟩)], ["GET:/p:"], none⟩ (by decide)

/-- C5: the control surface exposed to the host (modelled from the spec, since
only its callers survive in the source snapshot) has exactly the stated
semantics on the plugin instance's store: `clear` empties the whole store,
`invalidate` deletes precisely the entry under the key derived by the same key
generator the interceptor uses (other keys untouched) and coincides with
`invalidateKey` applied to that derived key, and `invalidateKey` deletes by
literal key; an eligible interceptor call right after `invalidate` therefore
misses and invokes the origin. -/
theorem control_surface_operations :
    (∀ s : InMemoryCacheStorage,
      (ControlSurface.clear s).cache = [] ∧ (ControlSurface.clear s).accessOrder = []) ∧
    (∀ (cfg : CachePluginConfig) (m p : String) (i : Option String)
        (s : InMemoryCacheStorage),
      ControlSurface.invalidate cfg m p i s = s.delete (cfg.keyGenerator m p i) ∧
      mapGet (ControlSurface.invalidate cfg m p i s).cache (cfg.keyGenerator m p i) =
        none ∧
      (∀ k2, k2 ≠ cfg.keyGenerator m p i →
        mapGet (ControlSurface.invalidate cfg m p i s).cache k2 = mapGet s.cache k2)) ∧
    (∀ (k : String) (s : InMemoryCacheStorage),
      ControlSurface.invalidateKey k s = s.delete k ∧
      mapGet (ControlSurface.invalidateKey k s).cache k = none) ∧
    (∀ (cfg : CachePluginConfig) (m p : String) (i : Option String)
        (s : InMemoryCacheStorage),
      ControlSurface.invalidate cfg m p i s =
        ControlSurface.invalidateKey (cfg.keyGenerator m p i) s) ∧
    (∀ (cfg : CachePluginConfig) (m p : String) (i : Option String)
        (origin : Except Err Val) (t : Time) (s : InMemoryCacheStorage),
      cfg.methods.contains m = true →
      (handlerWrapper cfg m p i origin t (ControlSurface.invalidate cfg m p i s)).2.2 = 1) := by
  refine ⟨?_, ?_, ?_, ?_, ?_⟩
  · intro s
    exact ⟨rfl, rfl⟩
  · intro cfg m p i s
    refine ⟨rfl, delete_mapGet_self s _, ?_⟩
    intro k2 hk2
    exact mapGet_mapDelete_ne s.cache hk2
  · intro k s
    exact ⟨rfl, delete_mapGet_self s _⟩
  · intro cfg m p i s
    rfl
  · intro cfg m p i origin t s hc
    rw [handlerWrapper_eligible cfg m p i origin t _ hc,
      eligibleCall_miss cfg (cfg.keyGenerator m p i) origin t
        (ControlSurface.invalidate cfg m p i s) (delete_mapGet_self s _)]
    cases origin <;> rfl

theorem control_surface_operations_witness :
    (ControlSurface.clear
      (⟨[("a", ⟨1, 2, 3⟩)], ["a"], none⟩ : InMemoryCacheStorage)).cache = [] ∧
    mapGet (ControlSurface.invalidate {} "GET" "/p" none
        ⟨[("GET:/p:", ⟨7, 0, 99⟩), ("x", ⟨1, 1, 1⟩)], ["GET:/p:", "x"], none⟩).cache
      (({} : CachePluginConfig).keyGenerator "GET" "/p" none) = none ∧
    mapGet (ControlSurface.invalidate {} "GET" "/p" none
        ⟨[("GET:/p:", ⟨7, 0, 99⟩), ("x", ⟨1, 1, 1⟩)], ["GET:/p:", "x"], none⟩).cache "x" =
      mapGet [("GET:/p:", ⟨7, 0, 99⟩), ("x", ⟨1, 1, 1⟩)] "x" ∧
    ControlSurface.invalidate {} "GET" "/p" none
        ⟨[("GET:/p:", ⟨7, 0, 99⟩)], ["GET:/p:"], none⟩ =
      ControlSurface.invalidateKey (({} : CachePluginConfig).keyGenerator "GET" "/p" none)
        ⟨[("GET:/p:", ⟨7, 0, 99⟩)], ["GET:/p:"], none⟩ ∧
    (handlerWrapper {} "GET" "/p" none (Except.ok 8) 50
      (ControlSurface.invalidate {} "GET" "/p" none
        ⟨[("GET:/p:", ⟨7, 0, 99⟩)], ["GET:/p:"], none⟩)).2.2 = 1 := by
  refine ⟨?_, ?_, ?_, ?_, ?_⟩
  · exact (control_surface_operations.1
      (⟨[("a", ⟨1, 2, 3⟩)], ["a"], none⟩ : InMemoryCacheStorage)).1
  · exact (control_surface_operations.2.1 {} "GET" "/p" none
      ⟨[("GET:/p:", ⟨7, 0, 99⟩), ("x", ⟨1, 1, 1⟩)], ["GET:/p:", "x"], none⟩).2.1
  · exact (control_surface_operations.2.1 {} "GET" "/p" none
      ⟨[("GET:/p:", ⟨7, 0, 99⟩), ("x", ⟨1, 1, 1⟩)], ["GET:/p:", "x"], none⟩).2.2
      "x" (by decide)
  · exact control_surface_operations.2.2.2.1 {} "GET" "/p" none
      ⟨[("GET:/p:", ⟨7, 0, 99⟩)], ["GET:/p:"], none⟩
  · exact control_surface_operations.2.2.2.2 {} "GET" "/p" none (Except.ok 8) 50
      ⟨[("GET:/p:", ⟨7, 0, 99⟩)], ["GET:/p:"], none⟩ (by decide)

/-- C7 counterexample: when the clock has not advanced between the original
caching instant and the `refresh()` call (both read 5 ms), the refreshed
wrapper's `cachedAt` equals the previous entry's `cachedAt` instead of being
strictly greater — `newCachedAt = new Date()` carries no strictness guarantee. -/
theorem refresh_same_instant_not_strictly_newer :
    mapGet (⟨[("k", ⟨1, 5, 300005⟩)], ["k"], none⟩ :
        InMemoryCacheStorage).cache "k" = some ⟨1, 5, 300005⟩ ∧
    (CachingWrapper.refresh {} "k" (Except.ok 2) 5
        ⟨[("k", ⟨1, 5, 300005⟩)], ["k"], none⟩).1 = Except.ok ⟨2, 5, 300005⟩ ∧
    ¬ (⟨1, 5, 300005⟩ : CacheEntry).cachedAt <
        (⟨2, 5, 300005⟩ : CachingWrapper).cachedAt := by
  refine ⟨by decide, rfl, by decide⟩

/-- C7 (amended): a successful `refresh()` performs exactly one origin
invocation, writes the replacement entry `⟨v, now, now + ttl·1000⟩` under its
key (a delete followed by a set), and returns a newly built wrapper with
`cachedAt = now()` and `expiresAt = cachedAt + ttl` — so the new `cachedAt` is
`≥` the previous one under a monotone clock, and strictly greater exactly when
the clock at refresh time has strictly advanced past the previous `cachedAt`
(`refresh` is a pure function here, so the wrapper it was called on is
untouched by construction). -/
theorem refresh_success_replaces_entry (cfg : CachePluginConfig) (key : String)
    (v : Val) (now : Time) (s : InMemoryCacheStorage) (prev : CachingWrapper)
    (h : prev.cachedAt < now) :
    CachingWrapper.refresh cfg key (Except.ok v) now s =
      (Except.ok (createWrapper v now (now + cfg.ttl * 1000)),
        (s.delete key).set key ⟨v, now, now + cfg.ttl * 1000⟩, 1) ∧
    mapGet (((s.delete key).set key ⟨v, now, now + cfg.ttl * 1000⟩)).cache key =
      some ⟨v, now, now + cfg.ttl * 1000⟩ ∧
    prev.cachedAt < (createWrapper v now (now + cfg.ttl * 1000)).cachedAt :=
  ⟨rfl, set_mapGet_self _ _ _, h⟩

theorem refresh_success_replaces_entry_witness :
    CachingWrapper.refresh {} "k" (Except.ok 2) 9
        ⟨[("k", ⟨1, 5, 300005⟩)], ["k"], none⟩ =
      (Except.ok (createWrapper 2 9 (9 + ({} : CachePluginConfig).ttl * 1000)),
        ((⟨[("k", ⟨1, 5, 300005⟩)], ["k"], none⟩ : InMemoryCacheStorage).delete "k").set
          "k" ⟨2, 9, 9 + ({} : CachePluginConfig).ttl * 1000⟩, 1) ∧
    mapGet ((((⟨[("k", ⟨1, 5, 300005⟩)], ["k"], none⟩ :
        InMemoryCacheStorage).delete "k").set "k"
        ⟨2, 9, 9 + ({} : CachePluginConfig).ttl * 1000⟩).cache) "k" =
      some ⟨2, 9, 9 + ({} : CachePluginConfig).ttl * 1000⟩ ∧
    (⟨1, 5, 300005⟩ : CachingWrapper).cachedAt <
      (createWrapper 2 9 (9 + ({} : CachePluginConfig).ttl * 1000)).cachedAt :=
  refresh_success_replaces_entry {} "k" 2 9
    ⟨[("k", ⟨1, 5, 300005⟩)], ["k"], none⟩ ⟨1, 5, 300005⟩ (by decide)

/-- C1 counterexample: at the boundary instant `now = expiresAt` the claim's
hit condition `now() <= expiresAt` holds, yet the interceptor treats the stored
entry as expired — it invokes the origin operation (count 1) and returns a
wrapper rebuilt from the fresh result with a new `cachedAt`, because the code
tests `now < cached.expiresAt` strictly (src/index.ts line 318). -/
theorem boundary_instant_invokes_origin :
    mapGet (⟨[("GET:/p:", ⟨7, 0, 5000⟩)], ["GET:/p:"], none⟩ :
        InMemoryCacheStorage).cache "GET:/p:" = some ⟨7, 0, 5000⟩ ∧
    ({} : CachePluginConfig).keyGenerator "GET" "/p" none = "GET:/p:" ∧
    (5000 : Time) ≤ (⟨7, 0, 5000⟩ : CacheEntry).expiresAt ∧
    (handlerWrapper {} "GET" "/p" none (Except.ok 9) 5000
      ⟨[("GET:/p:", ⟨7, 0, 5000⟩)], ["GET:/p:"], none⟩).2.2 = 1 ∧
    (handlerWrapper {} "GET" "/p" none (Except.ok 9) 5000
      ⟨[("GET:/p:", ⟨7, 0, 5000⟩)], ["GET:/p:"], none⟩).1 =
      Except.ok (CallResult.wrapped ⟨9, 5000, 305000⟩) :=
  ⟨by decide, by decide, by decide, by decide, rfl⟩

/-- C1 (amended): a stored entry is served as a wrapper over the stored fields
without invoking the origin operation under the strict bound
`now() < expiresAt` (at `now = expiresAt` the interceptor refetches);
consequently any eligible call that returned a wrapper `w` is replayed
identically — the very same wrapper, hence identical `cachedAt`, with zero
origin invocations — by any later eligible call strictly before `w.expiresAt`,
i.e. strictly within the TTL window of the caching instant. -/
theorem live_hit_serves_stored_entry (cfg : CachePluginConfig) (method path : String)
    (input : Option String) :
    (∀ (origin : Except Err Val) (now : Time) (s : InMemoryCacheStorage) (e : CacheEntry),
      cfg.methods.contains method = true →
      mapGet s.cache (cfg.keyGenerator method path input) = some e →
      now < e.expiresAt →
      handlerWrapper cfg method path input origin now s =
        (Except.ok (CallResult.wrapped (createWrapper e.data e.cachedAt e.expiresAt)),
          { s with accessOrder :=
              s.accessOrder.filter (fun x => x != cfg.keyGenerator method path input) ++
                [cfg.keyGenerator method path input] }, 0)) ∧
    (∀ (o1 o2 : Except Err Val) (t0 t1 : Time) (s s1 : InMemoryCacheStorage)
        (w : CachingWrapper) (n : Nat),
      cfg.methods.contains method = true →
      handlerWrapper cfg method path input o1 t0 s =
        (Except.ok (CallResult.wrapped w), s1, n) →
      t1 < w.expiresAt →
      (handlerWrapper cfg method path input o2 t1 s1).1 =
        Except.ok (CallResult.wrapped w) ∧
      (handlerWrapper cfg method path input o2 t1 s1).2.2 = 0) := by
  constructor
  · intro origin now s e hc hm ht
    rw [handlerWrapper_eligible cfg method path input origin now s hc,
      eligibleCall_hit cfg _ origin now s hm ht]
  · intro o1 o2 t0 t1 s s1 w n hc h ht1
    obtain ⟨wd, wc, we⟩ := w
    have hentry :=
      eligible_wrapped_entry cfg method path input o1 t0 s s1 ⟨wd, wc, we⟩ n hc h
    rw [handlerWrapper_eligible cfg method path input o2 t1 s1 hc,
      eligibleCall_hit cfg _ o2 t1 s1 hentry ht1]
    exact ⟨rfl, rfl⟩

theorem live_hit_serves_stored_entry_witness :
    handlerWrapper {} "GET" "/p" none (Except.ok 9) 4999
        ⟨[("GET:/p:", ⟨7, 0, 5000⟩)], ["GET:/p:"], none⟩ =
      (Except.ok (CallResult.wrapped (createWrapper 7 0 5000)),
        ⟨[("GET:/p:", ⟨7, 0, 5000⟩)], ["GET:/p:"], none⟩, 0) ∧
    ((handlerWrapper {} "GET" "/p" none (Except.ok 9) 299999
        ⟨[("GET:/p:", ⟨7, 0, 300000⟩)], ["GET:/p:"], none⟩).1 =
      Except.ok (CallResult.wrapped ⟨7, 0, 300000⟩) ∧
     (handlerWrapper {} "GET" "/p" none (Except.ok 9) 299999
        ⟨[("GET:/p:", ⟨7, 0, 300000⟩)], ["GET:/p:"], none⟩).2.2 = 0) :=
  ⟨(live_hit_serves_stored_entry {} "GET" "/p" none).1 (Except.ok 9) 4999
      ⟨[("GET:/p:", ⟨7, 0, 5000⟩)], ["GET:/p:"], none⟩ ⟨7, 0, 5000⟩
      (by decide) (by decide) (by decide),
   (live_hit_serves_stored_entry {} "GET" "/p" none).2 (Except.ok 7) (Except.ok 9)
      0 299999 (InMemoryCacheStorage.emptyStore none)
      ⟨[("GET:/p:", ⟨7, 0, 300000⟩)], ["GET:/p:"], none⟩ ⟨7, 0, 300000⟩ 1
      (by decide) rfl (by decide)⟩

/-! ### Lemmas for the LRU eviction claim -/

theorem mapDelete_cons_self (k : String) (v : CacheEntry) (l : List (String × CacheEntry)) :
    mapDelete ((k, v) :: l) k = mapDelete l k := by
  simp [mapDelete]

theorem mapDelete_of_not_mem (l : List (String × CacheEntry)) {k : String}
    (h : k ∉ l.map Prod.fst) : mapDelete l k = l := by
  apply List.filter_eq_self.mpr
  intro p hp
  rw [bne_iff_ne]
  intro hpk
  exact h (hpk ▸ List.mem_map_of_mem Prod.fst hp)

theorem mapGet_map_pair_mem (L : List String) (v : CacheEntry) {x : String} (h : x ∈ L) :
    mapGet (L.map fun k => (k, v)) x = some v := by
  induction L with
  | nil => cases h
  | cons a t ih =>
      by_cases hax : a = x
      · simp only [List.map_cons, mapGet, if_pos hax]
      · rcases List.mem_cons.mp h with h1 | h1
        · exact absurd h1.symm hax
        · simp only [List.map_cons, mapGet, if_neg hax]
          exact ih h1

/-- Setting a fresh nonempty-headed key list at exact capacity: the store holds
`k0 :: restInit` (exactly `N` keys, `k0` least recently used), a new key
`klast` is set, `k0` is evicted and `klast` appended. -/
theorem set_full_literal (N : Nat) (v : CacheEntry) (k0 : String) (restInit : List String)
    (klast : String) (hlen : (k0 :: restInit).length = N)
    (hk0ne : k0 ≠ "") (hk0_init : k0 ∉ restInit) (hk0_klast : k0 ≠ klast)
    (hklast_init : klast ∉ restInit) :
    (⟨(k0 :: restInit).map (fun k => (k, v)), k0 :: restInit, some N⟩ :
        InMemoryCacheStorage).set klast v =
      ⟨(restInit ++ [klast]).map (fun k => (k, v)), restInit ++ [klast], some N⟩ := by
  have hcap : (⟨(k0 :: restInit).map (fun k => (k, v)), k0 :: restInit, some N⟩ :
      InMemoryCacheStorage).atCapacity = true := by
    simp only [InMemoryCacheStorage.atCapacity, List.length_map, hlen]
    simp
  have hget_klast : mapGet ((k0 :: restInit).map fun k => (k, v)) klast = none := by
    rw [mapGet_eq_none_iff, keys_map_pair]
    intro hmem
    rcases List.mem_cons.mp hmem with h1 | h1
    · exact hk0_klast h1.symm
    · exact hklast_init h1
  have hcond : ((⟨(k0 :: restInit).map (fun k => (k, v)), k0 :: restInit, some N⟩ :
      InMemoryCacheStorage).atCapacity &&
      !(mapHas (⟨(k0 :: restInit).map (fun k => (k, v)), k0 :: restInit, some N⟩ :
        InMemoryCacheStorage).cache klast)) = true := by
    rw [hcap]
    show (true && !(mapHas ((k0 :: restInit).map fun k => (k, v)) klast)) = true
    rw [mapHas, hget_klast]
    rfl
  rw [set_eq_evict_cons _ klast v hcond rfl hk0ne]
  show (⟨mapSet (mapDelete ((k0 :: restInit).map fun k => (k, v)) k0) klast v,
      restInit.filter (fun x => x != klast) ++ [klast], some N⟩ : InMemoryCacheStorage) = _
  have hdel : mapDelete ((k0 :: restInit).map fun k => (k, v)) k0 =
      restInit.map fun k => (k, v) := by
    rw [List.map_cons, mapDelete_cons_self]
    exact mapDelete_of_not_mem _ (by rw [keys_map_pair]; exact hk0_init)
  rw [hdel, mapSet_of_not_mem _ v (by rw [keys_map_pair]; exact hklast_init),
    filter_ne_of_not_mem hklast_init]
  simp [List.map_append]

/-- C2 counterexample: with `maxSize = 1` and the least-recently-used key being
the empty string, setting the fresh key `"b"` does NOT evict the LRU entry:
`accessOrder.shift()` pops `""`, but the JS truthiness guard `if (oldestKey)`
skips `cache.delete("")`, so both entries remain and the cache exceeds
`maxSize`. -/
theorem lru_eviction_skipped_for_empty_key :
    mapGet (((InMemoryCacheStorage.emptyStore (some 1)).set "" ⟨0, 0, 0⟩).set "b"
        ⟨0, 0, 0⟩).cache "" = some ⟨0, 0, 0⟩ ∧
    (((InMemoryCacheStorage.emptyStore (some 1)).set "" ⟨0, 0, 0⟩).set "b"
        ⟨0, 0, 0⟩).cache.length = 2 ∧
    (((InMemoryCacheStorage.emptyStore (some 1)).set "" ⟨0, 0, 0⟩).set "b"
        ⟨0, 0, 0⟩).accessOrder = ["b"] := by
  refine ⟨by decide, by decide, by decide⟩

/-- C2 (amended): the stated LRU behaviour holds whenever the keys involved are
nonempty (the eviction guard `if (oldestKey)` treats the empty-string key as
absent and skips its deletion): a `get` hit moves its key to the
most-recently-used end without touching the map; a `set` of a new key at
capacity whose least-recently-used key `k0` is nonempty evicts `k0` (pop-front)
and inserts the new key at the most-recently-used end; inserting `N + 1`
distinct nonempty keys into an empty store with `maxSize = N ≥ 1` evicts
exactly the least-recently-used (first) one, keeping the other `N`; and a `set`
overwriting an existing key leaves the map size unchanged and refreshes the
key's position to most-recently-used. -/
theorem lru_store_semantics :
    (∀ (s : InMemoryCacheStorage) (k : String) (e : CacheEntry),
      mapGet s.cache k = some e →
      s.get k = (some e,
        { s with accessOrder := s.accessOrder.filter (fun x => x != k) ++ [k] })) ∧
    (∀ (s : InMemoryCacheStorage) (k : String) (v : CacheEntry) (k0 : String)
        (rest : List String),
      s.atCapacity = true → mapHas s.cache k = false →
      s.accessOrder = k0 :: rest → k0 ≠ "" → k0 ≠ k →
      mapGet (s.set k v).cache k0 = none ∧
      mapGet (s.set k v).cache k = some v ∧
      (s.set k v).accessOrder = rest.filter (fun x => x != k) ++ [k]) ∧
    (∀ (N : Nat) (v : CacheEntry) (k0 : String) (rest : List String),
      (k0 :: rest).Nodup → (∀ x ∈ k0 :: rest, x ≠ "") →
      (k0 :: rest).length = N + 1 → 1 ≤ N →
      mapGet (insertKeys (InMemoryCacheStorage.emptyStore (some N))
        (k0 :: rest) v).cache k0 = none ∧
      (∀ x ∈ rest, mapGet (insertKeys (InMemoryCacheStorage.emptyStore (some N))
        (k0 :: rest) v).cache x = some v) ∧
      (insertKeys (InMemoryCacheStorage.emptyStore (some N))
        (k0 :: rest) v).accessOrder = rest) ∧
    (∀ (s : InMemoryCacheStorage) (k : String) (v : CacheEntry),
      mapHas s.cache k = true →
      (s.set k v).cache.length = s.cache.length ∧
      (s.set k v).accessOrder = s.accessOrder.filter (fun x => x != k) ++ [k]) := by
  refine ⟨?_, ?_, ?_, ?_⟩
  · intro s k e hm
    exact get_hit s hm
  · intro s k v k0 rest hcap hhas horder hk0ne hk0k
    have hcond : (s.atCapacity && !(mapHas s.cache k)) = true := by
      rw [hcap, hhas]
      rfl
    rw [set_eq_evict_cons s k v hcond horder hk0ne]
    refine ⟨?_, ?_, rfl⟩
    · show mapGet (mapSet (mapDelete s.cache k0) k v) k0 = none
      rw [mapGet_mapSet_ne _ v hk0k]
      exact mapGet_mapDelete_self s.cache k0
    · show mapGet (mapSet (mapDelete s.cache k0) k v) k = some v
      exact mapGet_mapSet_self _ k v
  · intro N v k0 rest hnd hne hlen hN
    rcases List.eq_nil_or_concat rest with hcon | ⟨restInit, klast, rfl⟩
    · subst hcon
      simp only [List.length_cons, List.length_nil] at hlen
      omega
    · rw [List.concat_eq_append] at hnd hne hlen ⊢
      have hndc := List.nodup_cons.mp hnd
      have hk0_not : k0 ∉ restInit ++ [klast] := hndc.1
      have hnd_tail := hndc.2
      rw [List.nodup_append] at hnd_tail
      have hklast_not_init : klast ∉ restInit := by
        intro hmem
        exact hnd_tail.2.2 hmem (List.mem_singleton_self klast)
      have hk0_init : k0 ∉ restInit := fun hm => hk0_not (List.mem_append_left _ hm)
      have hk0_klast : k0 ≠ klast := by
        intro hcon2
        exact hk0_not (List.mem_append_right _ (hcon2 ▸ List.mem_singleton_self klast))
      have hfront_nodup : (k0 :: restInit).Nodup :=
        List.nodup_cons.mpr ⟨hk0_init, hnd_tail.1⟩
      have hlen2 : restInit.length + 2 = N + 1 := by
        simpa [List.length_append] using hlen
      have hfront_len : (k0 :: restInit).length = N := by
        simp only [List.length_cons]
        omega
      have hS := insertKeys_fresh N v (k0 :: restInit) hfront_nodup (le_of_eq hfront_len)
      have hk0ne : k0 ≠ "" := hne k0 (List.mem_cons_self _ _)
      have hconsapp :
          (k0 :: (restInit ++ [klast])) = ((k0 :: restInit) ++ [klast]) :=
        (List.cons_append k0 restInit [klast]).symm
      have hfinal :
          insertKeys (InMemoryCacheStorage.emptyStore (some N))
              (k0 :: (restInit ++ [klast])) v =
            ⟨(restInit ++ [klast]).map (fun k => (k, v)), restInit ++ [klast], some N⟩ := by
        rw [hconsapp, insertKeys_append, hS]
        exact set_full_literal N v k0 restInit klast hfront_len hk0ne hk0_init
          hk0_klast hklast_not_init
      rw [hfinal]
      refine ⟨?_, ?_, rfl⟩
      · rw [mapGet_eq_none_iff, keys_map_pair]
        exact hk0_not
      · intro x hx
        exact mapGet_map_pair_mem _ v hx
  · intro s k v hhas
    have hcond : (s.atCapacity && !(mapHas s.cache k)) = false := by
      rw [hhas]
      simp
    rw [set_eq_of_cond_false s k v hcond]
    exact ⟨length_mapSet_of_has s.cache v hhas, rfl⟩

theorem lru_store_semantics_witness :
    (⟨[("a", ⟨1, 1, 1⟩), ("b", ⟨2, 2, 2⟩)], ["a", "b"], some 2⟩ :
        InMemoryCacheStorage).get "a" =
      (some ⟨1, 1, 1⟩,
        ⟨[("a", ⟨1, 1, 1⟩), ("b", ⟨2, 2, 2⟩)],
          (["a", "b"] : List String).filter (fun x => x != "a") ++ ["a"], some 2⟩) ∧
    mapGet ((⟨[("a", ⟨1, 1, 1⟩), ("b", ⟨2, 2, 2⟩)], ["a", "b"], some 2⟩ :
        InMemoryCacheStorage).set "c" ⟨3, 3, 3⟩).cache "a" = none ∧
    mapGet (insertKeys (InMemoryCacheStorage.emptyStore (some 2))
      ["k1", "k2", "k3"] ⟨0, 0, 0⟩).cache "k1" = none ∧
    mapGet (insertKeys (InMemoryCacheStorage.emptyStore (some 2))
      ["k1", "k2", "k3"] ⟨0, 0, 0⟩).cache "k3" = some ⟨0, 0, 0⟩ ∧
    ((⟨[("a", ⟨1, 1, 1⟩), ("b", ⟨2, 2, 2⟩)], ["a", "b"], some 2⟩ :
        InMemoryCacheStorage).set "a" ⟨9, 9, 9⟩).cache.length = 2 := by
  refine ⟨?_, ?_, ?_, ?_, ?_⟩
  · exact lru_store_semantics.1
      ⟨[("a", ⟨1, 1, 1⟩), ("b", ⟨2, 2, 2⟩)], ["a", "b"], some 2⟩ "a" ⟨1, 1, 1⟩ (by decide)
  · exact (lru_store_semantics.2.1
      ⟨[("a", ⟨1, 1, 1⟩), ("b", ⟨2, 2, 2⟩)], ["a", "b"], some 2⟩ "c" ⟨3, 3, 3⟩ "a" ["b"]
      (by decide) (by decide) (by decide) (by decide) (by decide)).1
  · exact (lru_store_semantics.2.2.1 2 ⟨0, 0, 0⟩ "k1" ["k2", "k3"]
      (by decide) (by decide) (by decide) (by decide)).1
  · exact (lru_store_semantics.2.2.1 2 ⟨0, 0, 0⟩ "k1" ["k2", "k3"]
      (by decide) (by decide) (by decide) (by decide)).2.1 "k3" (by decide)
  · exact (lru_store_semantics.2.2.2
      ⟨[("a", ⟨1, 1, 1⟩), ("b", ⟨2, 2, 2⟩)], ["a", "b"], some 2⟩ "a" ⟨9, 9, 9⟩
      (by decide)).1

/-- C10 counterexample: the "one entry per key, one LRU position per key"
invariant is not preserved by arbitrary operation sequences — with
`maxSize = 1`, `set ""` then `set "b"` pops `""` from the access order while
the truthiness-guarded `cache.delete` skips it, leaving a cache key with no
access-order position. -/
theorem store_invariant_broken_by_empty_key :
    ¬ StoreInv (applyOps (InMemoryCacheStorage.emptyStore (some 1))
      [StoreOp.opSet "" ⟨0, 0, 0⟩, StoreOp.opSet "b" ⟨0, 0, 0⟩]) := by
  decide

/-- C10 (amended): the invariant — the access-order sequence holds each key at
most once and its key set equals the key set of the entry map — is preserved by
every sequence of `get`, `set`, `delete`, `clear` operations, provided the
store starts in an invariant state containing no empty-string key and no `set`
in the sequence uses the empty-string key (the one key the eviction guard
mishandles); in particular it holds for every such sequence from the fresh
store. -/
theorem store_invariant_preserved (s : InMemoryCacheStorage) (ops : List StoreOp)
    (h : StoreGood s) (hops : ∀ op ∈ ops, opSetKeyNonempty op) :
    StoreInv (applyOps s ops) :=
  (storeGood_applyOps s ops h hops).1

theorem store_invariant_preserved_witness :
    StoreInv (applyOps (InMemoryCacheStorage.emptyStore (some 2))
      [StoreOp.opSet "a" ⟨1, 1, 1⟩, StoreOp.opGet "a", StoreOp.opSet "b" ⟨2, 2, 2⟩,
       StoreOp.opSet "c" ⟨3, 3, 3⟩, StoreOp.opDelete "b", StoreOp.opClear,
       StoreOp.opSet "d" ⟨4, 4, 4⟩, StoreOp.opGet "zzz"]) :=
  store_invariant_preserved (InMemoryCacheStorage.emptyStore (some 2))
    [StoreOp.opSet "a" ⟨1, 1, 1⟩, StoreOp.opGet "a", StoreOp.opSet "b" ⟨2, 2, 2⟩,
     StoreOp.opSet "c" ⟨3, 3, 3⟩, StoreOp.opDelete "b", StoreOp.opClear,
     StoreOp.opSet "d" ⟨4, 4, 4⟩, StoreOp.opGet "zzz"]
    (by decide) (by decide)
